import Mathlib

/-!
Verification of the pepper-service cryptographic primitives:
the hybrid asymmetric encryption scheme `Scheme1`
(`oidb/pepper/common/src/asymmetric_encryption/scheme1.rs`) and the
pairing-based verifiable unpredictable function `Scheme0`
(`oidb/pepper/common/src/vuf/scheme0.rs`).

The external cryptographic collaborators (curve25519 group arithmetic,
SHA3-256, AES-256-GCM, BLS12-381 pairing arithmetic) are modelled as
generic instances of their algebraic contracts: prime-order groups are
modelled as `ZMod p` written additively with generator `1`, hashes and
keystreams as fixed deterministic functions of the right output length,
and the pairing as the bilinear map `(a, b) ↦ a * b` on a prime-order
cyclic group.  All byte strings are `List Nat` with bytes `< 256`;
serialization is canonical fixed-length little-endian encoding with
strict validation on decode, mirroring the canonical-encoding rejection
performed by `curve25519-dalek` and `ark-serialize`.
-/

/-- Equality of fallible results is decidable; fallible operations return
`Except String` values mirroring the `anyhow::Result` values of the code. -/
instance {ε α : Type} [DecidableEq ε] [DecidableEq α] : DecidableEq (Except ε α) :=
  fun x y =>
    match x, y with
    | .ok a, .ok b =>
      if h : a = b then .isTrue (by rw [h])
      else .isFalse (fun hc => h (Except.ok.inj hc))
    | .error a, .error b =>
      if h : a = b then .isTrue (by rw [h])
      else .isFalse (fun hc => h (Except.error.inj hc))
    | .ok _, .error _ => .isFalse (fun hc => Except.noConfusion hc)
    | .error _, .ok _ => .isFalse (fun hc => Except.noConfusion hc)

/-! ## Byte-string utilities -/

/-- Little-endian encoding of a natural number into exactly `len` bytes. -/
def natToLe : Nat → Nat → List Nat
  | 0, _ => []
  | len + 1, v => (v % 256) :: natToLe len (v / 256)

/-- Little-endian decoding of a byte list into a natural number. -/
def leToNat : List Nat → Nat
  | [] => 0
  | b :: bs => b + 256 * leToNat bs

theorem natToLe_length (len v : Nat) : (natToLe len v).length = len := by
  induction len generalizing v with
  | zero => rfl
  | succ n ih => simp [natToLe, ih]

theorem natToLe_bytes_lt (len v : Nat) : ∀ b ∈ natToLe len v, b < 256 := by
  induction len generalizing v with
  | zero => simp [natToLe]
  | succ n ih =>
    intro b hb
    simp only [natToLe, List.mem_cons] at hb
    rcases hb with h | h
    · omega
    · exact ih _ b h

theorem leToNat_natToLe (len v : Nat) (h : v < 256 ^ len) :
    leToNat (natToLe len v) = v := by
  induction len generalizing v with
  | zero => simp [natToLe, leToNat]; omega
  | succ n ih =>
    have hdiv : v / 256 < 256 ^ n := by
      rw [Nat.div_lt_iff_lt_mul (by omega)]
      calc v < 256 ^ (n + 1) := h
        _ = 256 ^ n * 256 := by ring
    simp [natToLe, leToNat, ih _ hdiv]
    omega

theorem natToLe_leToNat (bs : List Nat) (hb : ∀ b ∈ bs, b < 256) :
    natToLe bs.length (leToNat bs) = bs := by
  induction bs with
  | nil => rfl
  | cons b bs ih =>
    have hblt : b < 256 := hb b (List.mem_cons_self _ _)
    have hrest : ∀ x ∈ bs, x < 256 := fun x hx => hb x (List.mem_cons_of_mem _ hx)
    simp only [List.length_cons, natToLe, leToNat]
    have h1 : (b + 256 * leToNat bs) % 256 = b := by omega
    have h2 : (b + 256 * leToNat bs) / 256 = leToNat bs := by omega
    rw [h1, h2, ih hrest]

theorem leToNat_lt (bs : List Nat) (hb : ∀ b ∈ bs, b < 256) :
    leToNat bs < 256 ^ bs.length := by
  induction bs with
  | nil => simp [leToNat]
  | cons b bs ih =>
    have hblt : b < 256 := hb b (List.mem_cons_self _ _)
    have hrest := ih (fun x hx => hb x (List.mem_cons_of_mem _ hx))
    simp only [leToNat, List.length_cons, pow_succ]
    calc b + 256 * leToNat bs < 256 + 256 * leToNat bs := by omega
      _ = 256 * (leToNat bs + 1) := by ring
      _ ≤ 256 * 256 ^ bs.length := by
          exact Nat.mul_le_mul_left 256 (by omega)
      _ = 256 ^ bs.length * 256 := by ring

/-! ## Generic fixed-length canonical encoding of `ZMod n` values

Both `curve25519-dalek` and `ark-serialize` encode field/group values as
fixed-length little-endian byte strings of their canonical representative
and reject, on decode, any byte string whose value is not reduced. -/

/-- Canonical serialization of a `ZMod n` value into `len` bytes. -/
def zmodToBytes (len : Nat) {n : Nat} (x : ZMod n) : List Nat :=
  natToLe len x.val

/-- Canonical deserialization: fixed length, genuine bytes, reduced value. -/
def zmodFromBytes (len n : Nat) (bs : List Nat) : Option (ZMod n) :=
  if bs.length = len ∧ bs.all (fun b => b < 256) ∧ leToNat bs < n then
    some ((leToNat bs : Nat) : ZMod n)
  else none

theorem zmodToBytes_length (len n : Nat) (x : ZMod n) :
    (zmodToBytes len x).length = len := natToLe_length len x.val

theorem zmodFromBytes_zmodToBytes (len n : Nat) [NeZero n] (hlen : n ≤ 256 ^ len)
    (x : ZMod n) : zmodFromBytes len n (zmodToBytes len x) = some x := by
  have hval : x.val < n := ZMod.val_lt x
  have hv256 : x.val < 256 ^ len := lt_of_lt_of_le hval hlen
  have hdec : leToNat (natToLe len x.val) = x.val := leToNat_natToLe len x.val hv256
  simp only [zmodFromBytes, zmodToBytes]
  rw [if_pos]
  · rw [hdec, ZMod.natCast_rightInverse x]
  · refine ⟨natToLe_length len x.val, ?_, ?_⟩
    · simp only [List.all_eq_true, decide_eq_true_eq]
      exact natToLe_bytes_lt len x.val
    · rw [hdec]; exact hval

theorem zmodFromBytes_eq_some (len n : Nat) [NeZero n] (bs : List Nat) (x : ZMod n)
    (h : zmodFromBytes len n bs = some x) : bs = zmodToBytes len x := by
  simp only [zmodFromBytes] at h
  split at h
  · rename_i hcond
    obtain ⟨hl, hall, hlt⟩ := hcond
    have hx : x = ((leToNat bs : Nat) : ZMod n) := by
      injection h with h'; exact h'.symm
    have hbytes : ∀ b ∈ bs, b < 256 := by
      intro b hb
      have := List.all_eq_true.mp hall b hb
      exact of_decide_eq_true this
    have hval : x.val = leToNat bs := by
      rw [hx, ZMod.val_cast_of_lt hlt]
    simp only [zmodToBytes, hval]
    rw [← hl, natToLe_leToNat bs hbytes]
  · exact absurd h (by simp)

/-! ## Model of the external SHA3-256 and AES-256-GCM collaborators

The spec treats the hash and the AEAD cipher as external collaborators
(`sha3::Sha3_256`, `aes_gcm::Aes256Gcm`): only their contracts matter to
the claims — SHA3-256 is a deterministic function with a fixed 32-byte
output; AES-256-GCM is an AEAD whose ciphertext is the encrypted message
followed by a 16-byte authentication tag, decryption being the exact
inverse under the same (key, nonce) and failing on tag mismatch. -/

/-- Model of SHA3-256: a fixed deterministic function producing 32 bytes. -/
def sha3_256 (input : List Nat) : List Nat :=
  (List.range 32).map
    (fun i => (input.foldl (fun acc b => (acc * 131 + b + 1) % 4294967291) (i + 7)) % 256)

theorem sha3_256_length (input : List Nat) : (sha3_256 input).length = 32 := by
  simp [sha3_256]

/-- Model of the AES-256-CTR keystream inside GCM: a deterministic byte
stream indexed by position, determined by the key and the nonce. -/
def aesKeystream (key nonce : List Nat) (i : Nat) : Nat :=
  (key.foldl (fun a b => (a * 131 + b + 1) % 4294967291) 0 +
    nonce.foldl (fun a b => (a * 131 + b + 1) % 4294967291) 1 + 37 * i) % 256

/-- XOR a byte list against a keystream starting at stream position `i`. -/
def ctrXor (ks : Nat → Nat) : Nat → List Nat → List Nat
  | _, [] => []
  | i, b :: bs => (b ^^^ ks i) :: ctrXor ks (i + 1) bs

theorem ctrXor_length (ks : Nat → Nat) (i : Nat) (bs : List Nat) :
    (ctrXor ks i bs).length = bs.length := by
  induction bs generalizing i with
  | nil => rfl
  | cons b bs ih => simp [ctrXor, ih]

theorem ctrXor_ctrXor (ks : Nat → Nat) (i : Nat) (bs : List Nat) :
    ctrXor ks i (ctrXor ks i bs) = bs := by
  induction bs generalizing i with
  | nil => rfl
  | cons b bs ih =>
    simp only [ctrXor, Nat.xor_assoc, Nat.xor_self, Nat.xor_zero]
    simp only [List.cons.injEq, true_and]
    exact ih (i + 1)

/-- Model of the GCM authentication tag: 16 bytes determined by the key,
the nonce and the ciphertext body (no associated data is used). -/
def gcmTag (key nonce ct : List Nat) : List Nat :=
  (sha3_256 (key ++ nonce ++ ct)).take 16

theorem gcmTag_length (key nonce ct : List Nat) : (gcmTag key nonce ct).length = 16 := by
  simp [gcmTag, sha3_256_length]

/-- Model of `Aes256Gcm::encrypt`: CTR-encrypted message followed by the
16-byte authentication tag. -/
def aes256GcmEncrypt (key nonce msg : List Nat) : List Nat :=
  let body := ctrXor (aesKeystream key nonce) 0 msg
  body ++ gcmTag key nonce body

/-- Model of `Aes256Gcm::decrypt`: split off the trailing 16-byte tag,
recompute it, fail on mismatch, otherwise invert the CTR layer. -/
def aes256GcmDecrypt (key nonce ct : List Nat) : Option (List Nat) :=
  if ct.length < 16 then none
  else
    let body := ct.take (ct.length - 16)
    let tag := ct.drop (ct.length - 16)
    if tag = gcmTag key nonce body then some (ctrXor (aesKeystream key nonce) 0 body)
    else none

theorem aes256GcmEncrypt_length (key nonce msg : List Nat) :
    (aes256GcmEncrypt key nonce msg).length = msg.length + 16 := by
  simp [aes256GcmEncrypt, ctrXor_length, gcmTag_length]

theorem aes256GcmDecrypt_encrypt (key nonce msg : List Nat) :
    aes256GcmDecrypt key nonce (aes256GcmEncrypt key nonce msg) = some msg := by
  have hlen := aes256GcmEncrypt_length key nonce msg
  have hbody : (ctrXor (aesKeystream key nonce) 0 msg).length = msg.length :=
    ctrXor_length _ _ _
  simp only [aes256GcmDecrypt, hlen]
  rw [if_neg (by omega)]
  have hsub : msg.length + 16 - 16 = (ctrXor (aesKeystream key nonce) 0 msg).length := by
    omega
  simp only [aes256GcmEncrypt, hsub]
  rw [List.take_left, List.drop_left]
  rw [if_pos rfl, ctrXor_ctrXor]

/-! ## Model of the external curve25519 group

`elgamal::curve25519::Curve25519` exposes the prime-order subgroup of the
Edwards curve (order `ell`, a 253-bit prime), with compressed 32-byte
point encodings and canonical 32-byte scalar encodings.  The spec calls
it "a 255-bit prime-order group"; any such cyclic group is isomorphic to
`ZMod ell` written additively with generator `1`, which is the model used
here.  Scalars also live in `ZMod ell`. -/

/-- Order of the prime-order subgroup of Curve25519. -/
def ell : Nat := 2 ^ 252 + 27742317777372353535851937790883648493

instance : NeZero ell := ⟨by decide⟩

theorem ell_le_pow : ell ≤ 256 ^ 32 := by decide

/-- Scalars modulo the group order (`curve25519_dalek::scalar::Scalar`). -/
abbrev Scalar25519 := ZMod ell

/-- Elements of the prime-order group, written additively. -/
abbrev Point25519 := ZMod ell

/-- The group generator (`basepoint`). -/
def basepoint : Point25519 := 1

/-- Scalar multiplication `s · p`. -/
def pointMul (s : Scalar25519) (p : Point25519) : Point25519 := s * p

/-- Group addition. -/
def pointAdd (p q : Point25519) : Point25519 := p + q

/-- Group subtraction. -/
def pointSub (p q : Point25519) : Point25519 := p - q

/-- `CompressedEdwardsY::to_bytes` composed with `compress`: the canonical
32-byte encoding of a group element. -/
def compressPoint (p : Point25519) : List Nat := zmodToBytes 32 p

/-- `CompressedEdwardsY::from_slice(...).decompress()`: accepts exactly the
canonical 32-byte encodings. -/
def decompressPoint (bs : List Nat) : Option Point25519 := zmodFromBytes 32 ell bs

/-- `Scalar::to_bytes`: canonical 32-byte little-endian scalar encoding. -/
def scalarToBytes (s : Scalar25519) : List Nat := zmodToBytes 32 s

/-- `Scalar::from_canonical_bytes`: accepts exactly 32-byte encodings of
reduced scalars. -/
def scalarFromCanonicalBytes (bs : List Nat) : Option Scalar25519 :=
  zmodFromBytes 32 ell bs

theorem compressPoint_length (p : Point25519) : (compressPoint p).length = 32 :=
  zmodToBytes_length 32 ell p

theorem decompressPoint_compressPoint (p : Point25519) :
    decompressPoint (compressPoint p) = some p :=
  zmodFromBytes_zmodToBytes 32 ell ell_le_pow p

theorem decompressPoint_eq_some (bs : List Nat) (p : Point25519)
    (h : decompressPoint bs = some p) : bs = compressPoint p :=
  zmodFromBytes_eq_some 32 ell bs p h

theorem compressPoint_inj (p q : Point25519) (h : compressPoint p = compressPoint q) :
    p = q := by
  have h1 := decompressPoint_compressPoint p
  rw [h, decompressPoint_compressPoint q] at h1
  exact (Option.some.injEq _ _ ▸ h1).symm

theorem scalarFromCanonicalBytes_scalarToBytes (s : Scalar25519) :
    scalarFromCanonicalBytes (scalarToBytes s) = some s :=
  zmodFromBytes_zmodToBytes 32 ell ell_le_pow s

theorem scalarToBytes_length (s : Scalar25519) : (scalarToBytes s).length = 32 :=
  zmodToBytes_length 32 ell s

/-! ## The repository's `elgamal` module

The `elgamal` module itself is not among the provided source files; only
its caller `scheme1.rs` is.  It is modelled from the spec. -/

/-- Modelled from the spec: `elgamal::key_gen` (the repository's `elgamal`
module is not under `src/`) — "draw scalar `sk` uniformly from a
cryptographically secure source; compute `pk = sk · G`".  The randomness
source is represented by the scalar it produces. -/
def elgamalKeyGen (sk : Scalar25519) : Scalar25519 × Point25519 :=
  (sk, pointMul sk basepoint)

/-- Modelled from the spec: `elgamal::encrypt` (not under `src/`) — the
"generic Diffie-Hellman-style" encryption of a group element `m` under
`pk`, "producing a two-element ciphertext `(c0, c1)`": draw an ephemeral
scalar `k` and return `(k · G, m + k · pk)`.  The randomness source is
represented by the ephemeral scalar it produces. -/
def elgamalEncrypt (k : Scalar25519) (pk : Point25519) (m : Point25519) :
    Point25519 × Point25519 :=
  (pointMul k basepoint, pointAdd m (pointMul k pk))

/-- Modelled from the spec: `elgamal::decrypt` (not under `src/`) — "recover
`r` via the key-exchange decryption operation using `sk`": `c1 - sk · c0`. -/
def elgamalDecrypt (sk : Scalar25519) (c0 c1 : Point25519) : Point25519 :=
  pointSub c1 (pointMul sk c0)

theorem elgamalDecrypt_elgamalEncrypt (sk k m : Scalar25519) :
    elgamalDecrypt sk (elgamalEncrypt k (pointMul sk basepoint) m).1
      (elgamalEncrypt k (pointMul sk basepoint) m).2 = m := by
  simp only [elgamalEncrypt, elgamalDecrypt, pointMul, pointAdd, pointSub, basepoint]
  ring

/-! ## `asymmetric_encryption::scheme1` -/

namespace Scheme1

/-- The byte string `b"DST__AES_KEY_DERIVATION"`. -/
def dstAesKeyDerivation : List Nat :=
  [68, 83, 84, 95, 95, 65, 69, 83, 95, 75, 69, 89, 95, 68, 69, 82, 73, 86,
   65, 84, 73, 79, 78]

/-- `Scheme::scheme_name`. -/
def scheme_name : String := "Scheme1"

/-- `Scheme::hash_group_element_to_aes_key`: SHA3-256 of the domain
separation tag followed by the compressed element bytes. -/
def hash_group_element_to_aes_key (elementBytes : List Nat) : List Nat :=
  sha3_256 (dstAesKeyDerivation ++ elementBytes)

/-- `Scheme::key_gen`: ElGamal key generation; serialize the scalar and the
compressed public point.  The randomness source is represented by the
scalar it produces. -/
def key_gen (r : Scalar25519) : List Nat × List Nat :=
  let kp := elgamalKeyGen r
  (scalarToBytes kp.1, compressPoint kp.2)

/-- `Scheme::enc`.  The two randomness streams are represented by the
values they produce: `aesKeyElem` for `Curve25519::rand_element(main_rng)`,
`k` for the ephemeral scalar drawn inside `elgamal::encrypt`, and
`nonceBytes` for `Aes256Gcm::generate_nonce(aead_rng)`. -/
def enc (aesKeyElem : Point25519) (k : Scalar25519) (nonceBytes : List Nat)
    (pk : List Nat) (msg : List Nat) : Except String (List Nat) :=
  if pk.length ≠ 32 then
    .error "asymmetric_encryption::scheme1::enc failed with incorrect pk length"
  else
    match decompressPoint pk with
    | none =>
      .error "asymmetric_encryption::scheme1::enc failed with invalid pk element"
    | some pkElem =>
      let c := elgamalEncrypt k pkElem aesKeyElem
      let aesKeyBytes := hash_group_element_to_aes_key (compressPoint aesKeyElem)
      if nonceBytes.length ≠ 12 then
        .error "asymmetric_encryption::scheme1::enc failed with unexpected nonce len"
      else
        let aesCiphertext := aes256GcmEncrypt aesKeyBytes nonceBytes msg
        .ok (compressPoint c.1 ++ compressPoint c.2 ++ nonceBytes ++ aesCiphertext)

/-- `Scheme::dec`. -/
def dec (sk : List Nat) (ciphertext : List Nat) : Except String (List Nat) :=
  if sk.length ≠ 32 then
    .error "asymmetric_encryption::scheme1::dec failed with incorrect sk length"
  else
    match scalarFromCanonicalBytes sk with
    | none =>
      .error "asymmetric_encryption::scheme1::dec failed with sk deserialization error"
    | some skScalar =>
      if ciphertext.length < 76 then
        .error "asymmetric_encryption::scheme1::dec failed with invalid ciphertext length"
      else
        match decompressPoint (ciphertext.take 32) with
        | none =>
          .error "asymmetric_encryption::scheme1::dec failed with invalid c0 element"
        | some c0 =>
          match decompressPoint ((ciphertext.drop 32).take 32) with
          | none =>
            .error "asymmetric_encryption::scheme1::dec failed with invalid c1 element"
          | some c1 =>
            let aesKeyElement := compressPoint (elgamalDecrypt skScalar c0 c1)
            let aesKeyBytes := hash_group_element_to_aes_key aesKeyElement
            let nonce := (ciphertext.drop 64).take 12
            match aes256GcmDecrypt aesKeyBytes nonce (ciphertext.drop 76) with
            | none =>
              .error "asymmetric_encryption::scheme1::dec failed with aes decryption error"
            | some plaintext => .ok plaintext

end Scheme1

/-! ## Splitting the serialized hybrid ciphertext -/

theorem ciphertext_split (a b n x : List Nat) (ha : a.length = 32)
    (hb : b.length = 32) (hn : n.length = 12) :
    (a ++ b ++ n ++ x).take 32 = a ∧
    ((a ++ b ++ n ++ x).drop 32).take 32 = b ∧
    ((a ++ b ++ n ++ x).drop 64).take 12 = n ∧
    (a ++ b ++ n ++ x).drop 76 = x ∧
    (a ++ b ++ n ++ x).length = 76 + x.length := by
  have e1 : (a ++ b ++ n ++ x).take 32 = a := by
    rw [List.append_assoc, List.append_assoc]
    exact List.take_left' ha
  have d1 : (a ++ b ++ n ++ x).drop 32 = b ++ n ++ x := by
    rw [List.append_assoc, List.append_assoc]
    rw [List.drop_left' ha, ← List.append_assoc]
  have e2 : ((a ++ b ++ n ++ x).drop 32).take 32 = b := by
    rw [d1, List.append_assoc]
    exact List.take_left' hb
  have d2 : (a ++ b ++ n ++ x).drop 64 = n ++ x := by
    have : (a ++ b ++ n ++ x).drop 64 = ((a ++ b ++ n ++ x).drop 32).drop 32 := by
      rw [List.drop_drop]
    rw [this, d1, List.append_assoc, List.drop_left' hb]
  have e3 : ((a ++ b ++ n ++ x).drop 64).take 12 = n := by
    rw [d2]
    exact List.take_left' hn
  have d3 : (a ++ b ++ n ++ x).drop 76 = x := by
    have : (a ++ b ++ n ++ x).drop 76 = ((a ++ b ++ n ++ x).drop 64).drop 12 := by
      rw [List.drop_drop]
    rw [this, d2, List.drop_left' hn]
  have el : (a ++ b ++ n ++ x).length = 76 + x.length := by
    simp [List.length_append, ha, hb, hn]
    omega
  exact ⟨e1, e2, e3, d3, el⟩

/-! ## Behaviour of `Scheme1.enc` and `Scheme1.dec` on well-formed inputs -/

theorem Scheme1.enc_ok (aesKeyElem : Point25519) (k : Scalar25519)
    (nonceBytes : List Nat) (pkElem : Point25519) (msg : List Nat)
    (hn : nonceBytes.length = 12) :
    Scheme1.enc aesKeyElem k nonceBytes (compressPoint pkElem) msg =
      .ok (compressPoint (elgamalEncrypt k pkElem aesKeyElem).1 ++
        compressPoint (elgamalEncrypt k pkElem aesKeyElem).2 ++
        nonceBytes ++
        aes256GcmEncrypt (Scheme1.hash_group_element_to_aes_key
          (compressPoint aesKeyElem)) nonceBytes msg) := by
  simp only [Scheme1.enc, compressPoint_length, decompressPoint_compressPoint, hn]
  simp

theorem Scheme1.dec_parts (skScalar : Scalar25519) (c0 c1 : Point25519)
    (nonce payload : List Nat) (hn : nonce.length = 12) :
    Scheme1.dec (scalarToBytes skScalar)
      (compressPoint c0 ++ compressPoint c1 ++ nonce ++ payload) =
    match aes256GcmDecrypt
        (Scheme1.hash_group_element_to_aes_key
          (compressPoint (elgamalDecrypt skScalar c0 c1)))
        nonce payload with
    | none =>
      .error "asymmetric_encryption::scheme1::dec failed with aes decryption error"
    | some plaintext => .ok plaintext := by
  obtain ⟨e1, e2, e3, d3, el⟩ :=
    ciphertext_split (compressPoint c0) (compressPoint c1) nonce payload
      (compressPoint_length c0) (compressPoint_length c1) hn
  simp only [Scheme1.dec, scalarToBytes_length, scalarFromCanonicalBytes_scalarToBytes,
    el, e1, e2, e3, d3, decompressPoint_compressPoint]
  simp

/-- The hybrid-encryption round trip (property 1 of the spec), with the
randomness streams represented by the values they produce. -/
theorem Scheme1.roundtrip (skS : Scalar25519) (msg : List Nat)
    (aesKeyElem : Point25519) (k : Scalar25519) (nonce : List Nat)
    (hn : nonce.length = 12) :
    ∃ ct, Scheme1.enc aesKeyElem k nonce (Scheme1.key_gen skS).2 msg = .ok ct ∧
      Scheme1.dec (Scheme1.key_gen skS).1 ct = .ok msg := by
  refine ⟨compressPoint (elgamalEncrypt k (pointMul skS basepoint) aesKeyElem).1 ++
      compressPoint (elgamalEncrypt k (pointMul skS basepoint) aesKeyElem).2 ++
      nonce ++
      aes256GcmEncrypt (Scheme1.hash_group_element_to_aes_key
        (compressPoint aesKeyElem)) nonce msg, ?_, ?_⟩
  · simp only [Scheme1.key_gen, elgamalKeyGen]
    exact Scheme1.enc_ok aesKeyElem k nonce (pointMul skS basepoint) msg hn
  · simp only [Scheme1.key_gen, elgamalKeyGen]
    rw [Scheme1.dec_parts skS _ _ nonce _ hn]
    rw [elgamalDecrypt_elgamalEncrypt skS k aesKeyElem]
    rw [aes256GcmDecrypt_encrypt]

/-! ## Model of the external BLS12-381 pairing arithmetic

`ark_bls12_381` supplies the pairing group triple `(G1, G2, GT)`, all of
prime order `rBls` (the 255-bit scalar-field order), with compressed point
encodings of 48 bytes (`G1`), 96 bytes (`G2`) and canonical 32-byte field
encodings (`Fr`).  A generic bilinear group triple of prime order `r` is
modelled as `G1 = G2 = ZMod r` written additively with generators `1`, the
target group `ZMod r` written additively with identity `0`, and the
(non-degenerate, bilinear) pairing `e(a, b) = a * b`. -/

/-- The BLS12-381 scalar-field order `r`. -/
def rBls : Nat :=
  52435875175126190479447740508185965837690552500527637822603658699938581184513

instance : NeZero rBls := ⟨by decide⟩

theorem rBls_le_pow32 : rBls ≤ 256 ^ 32 := by decide

theorem rBls_le_pow48 : rBls ≤ 256 ^ 48 := by decide

theorem rBls_le_pow96 : rBls ≤ 256 ^ 96 := by decide

/-- The scalar field `Fr`. -/
abbrev FrBls := ZMod rBls

/-- The "evaluation" group `G1`, written additively. -/
abbrev G1Bls := ZMod rBls

/-- The "public-key" group `G2`, written additively. -/
abbrev G2Bls := ZMod rBls

/-- The target group `GT`, written additively. -/
abbrev GTBls := ZMod rBls

/-- `G2Affine::generator()` (also `G2Projective::generator()`). -/
def g2Generator : G2Bls := 1

/-- Scalar multiplication in `G1`. -/
def g1Mul (s : FrBls) (p : G1Bls) : G1Bls := s * p

/-- Scalar multiplication in `G2`. -/
def g2Mul (s : FrBls) (p : G2Bls) : G2Bls := s * p

/-- The bilinear pairing `e : G1 × G2 → GT`, modelled as multiplication in
`ZMod rBls` (writing `GT` additively). -/
def pairingBls (a : G1Bls) (b : G2Bls) : GTBls := a * b

/-- `Bls12_381::multi_pairing`: the sum (product, written additively) of
the pairwise pairings. -/
def multi_pairing (as bs : List (ZMod rBls)) : GTBls :=
  (List.zipWith pairingBls as bs).sum

/-- `Fq12::ONE`, the identity of the target group (written additively). -/
def gtIdentity : GTBls := 0

/-- `Fr::serialize_compressed` (for fields, `ark-serialize` ignores the
compress flag): canonical 32-byte little-endian encoding. -/
def frSerialize (s : FrBls) : List Nat := zmodToBytes 32 s

/-- `Fr::deserialize_compressed`: for prime fields `ark-serialize` ignores
the compress flag and rejects non-canonical (unreduced) encodings. -/
def frDeserializeCompressed (bs : List Nat) : Option FrBls :=
  zmodFromBytes 32 rBls bs

/-- `Fr::deserialize_uncompressed`: for prime fields `ark-serialize`
ignores the compress flag, so the algorithm is the same fixed-length read
with canonicity validation as in the compressed mode. -/
def frDeserializeUncompressed (bs : List Nat) : Option FrBls :=
  zmodFromBytes 32 rBls bs

/-- `G1Affine::serialize_compressed`: the canonical 48-byte encoding. -/
def g1Serialize (p : G1Bls) : List Nat := zmodToBytes 48 p

/-- `G1Affine::deserialize_compressed`: accepts exactly the canonical
48-byte encodings. -/
def g1Deserialize (bs : List Nat) : Option G1Bls := zmodFromBytes 48 rBls bs

/-- `G2Affine::serialize_compressed`: the canonical 96-byte encoding. -/
def g2Serialize (p : G2Bls) : List Nat := zmodToBytes 96 p

/-- `G2Affine::deserialize_compressed`: accepts exactly the canonical
96-byte encodings. -/
def g2Deserialize (bs : List Nat) : Option G2Bls := zmodFromBytes 96 rBls bs

/-! ## `vuf::scheme0` -/

namespace Scheme0

/-- `Scheme::scheme_name`. -/
def scheme_name : String := "Scheme0"

/-- `Scheme::hash_to_g1`: the `MapToCurveBasedHasher` hash-to-curve map
with the scheme's domain separation tag `APTOS_OIDB_VUF_SCHEME0_DST`,
modelled as a fixed deterministic map from byte strings into `G1`. -/
def hash_to_g1 (input : List Nat) : G1Bls :=
  ((input.foldl (fun a b => a * 257 + b + 1) 1 : Nat) : G1Bls)

/-- `Scheme::setup`: draw `sk` from the scalar field, set `pk = sk · G2`,
and serialize both (both serializations are compressed).  The randomness
source is represented by the scalar it produces. -/
def setup (sk : FrBls) : List Nat × List Nat :=
  let pk := g2Mul sk g2Generator
  (frSerialize sk, g2Serialize pk)

/-- `Scheme::pk_from_sk`: decode the scalar (compressed convention),
recompute `pk = sk · G2` and serialize it. -/
def pk_from_sk (sk : List Nat) : Except String (List Nat) :=
  match frDeserializeCompressed sk with
  | none => .error "vuf::scheme0::pk_from_sk failed with sk deserialization error"
  | some skScalar => .ok (g2Serialize (g2Mul skScalar g2Generator))

/-- `Scheme::eval`: decode the scalar (uncompressed convention), hash the
input to `G1`, multiply, serialize; the proof is the empty byte string. -/
def eval (sk : List Nat) (input : List Nat) : Except String (List Nat × List Nat) :=
  match frDeserializeUncompressed sk with
  | none => .error "vuf::scheme0::eval failed with ok deserialization error"
  | some skScalar =>
    let inputG1 := hash_to_g1 input
    let outputG1 := g1Mul skScalar inputG1
    .ok (zmodToBytes 48 outputG1, [])

/-- `Scheme::verify`: require an empty proof, decode `pk` and `output`,
and accept iff `e(-output, G2) · e(H, pk)` is the identity of `GT`. -/
def verify (pk input output proof : List Nat) : Except String Unit :=
  if proof.isEmpty then
    match g2Deserialize pk with
    | none => .error "vuf::scheme0::verify failed with pk deserialization error"
    | some pkG2 =>
      match g1Deserialize output with
      | none => .error "vuf::scheme0::verify failed with output deserialization error"
      | some outputG1 =>
        if gtIdentity =
            multi_pairing [-outputG1, hash_to_g1 input] [g2Generator, pkG2] then
          .ok ()
        else .error "vuf::scheme0::verify failed with final check failure"
  else .error "vuf::scheme0::verify failed with proof deserialization error"

end Scheme0

/-! ## Serialization round trips for the BLS encodings -/

theorem frDeserializeCompressed_frSerialize (s : FrBls) :
    frDeserializeCompressed (frSerialize s) = some s :=
  zmodFromBytes_zmodToBytes 32 rBls rBls_le_pow32 s

theorem frDeserializeUncompressed_frSerialize (s : FrBls) :
    frDeserializeUncompressed (frSerialize s) = some s :=
  zmodFromBytes_zmodToBytes 32 rBls rBls_le_pow32 s

theorem g1Deserialize_g1Serialize (p : G1Bls) :
    g1Deserialize (g1Serialize p) = some p :=
  zmodFromBytes_zmodToBytes 48 rBls rBls_le_pow48 p

theorem g1Deserialize_eq_some (bs : List Nat) (p : G1Bls)
    (h : g1Deserialize bs = some p) : bs = g1Serialize p :=
  zmodFromBytes_eq_some 48 rBls bs p h

theorem g2Deserialize_g2Serialize (p : G2Bls) :
    g2Deserialize (g2Serialize p) = some p :=
  zmodFromBytes_zmodToBytes 96 rBls rBls_le_pow96 p

theorem g1Serialize_length (p : G1Bls) : (g1Serialize p).length = 48 :=
  zmodToBytes_length 48 rBls p

/-- The pairing acceptance condition of `Scheme0.verify` holds exactly for
the scalar multiple of the hashed input by the secret key. -/
theorem pairing_check_iff (sk : FrBls) (h o : G1Bls) :
    (gtIdentity = multi_pairing [-o, h] [g2Generator, g2Mul sk g2Generator]) ↔
      o = g1Mul sk h := by
  simp only [gtIdentity, multi_pairing, List.zipWith, List.sum_cons, List.sum_nil,
    pairingBls, g2Generator, g2Mul, g1Mul]
  constructor
  · intro hEq
    linear_combination hEq
  · intro hEq
    rw [hEq]; ring

/-- `Scheme0.verify` with an honestly generated public key and an empty
proof accepts exactly the canonical encoding of `sk · hash_to_g1 input`. -/
theorem verify_iff_aux (sk : FrBls) (input output : List Nat) :
    Scheme0.verify (g2Serialize (g2Mul sk g2Generator)) input output [] = .ok () ↔
      output = g1Serialize (g1Mul sk (Scheme0.hash_to_g1 input)) := by
  simp only [Scheme0.verify, List.isEmpty_nil, if_true, g2Deserialize_g2Serialize]
  constructor
  · intro h
    split at h
    · exact absurd h (by simp)
    · rename_i o hdes
      split at h
      · rename_i hcheck
        have ho : o = g1Mul sk (Scheme0.hash_to_g1 input) :=
          (pairing_check_iff sk (Scheme0.hash_to_g1 input) o).mp hcheck
        rw [← ho]
        exact g1Deserialize_eq_some output o hdes
      · exact absurd h (by simp)
  · intro h
    subst h
    simp only [g1Deserialize_g1Serialize]
    rw [if_pos ((pairing_check_iff sk (Scheme0.hash_to_g1 input) _).mpr rfl)]

/-! ## Claim theorems -/

/-- C1: Hybrid-encryption round trip — for every key pair `(sk, pk)`
returned by `Scheme1.key_gen` (any randomness), every message `m`
(including the zero-length message) and any randomness supplied to `enc`
(ephemeral group element, ephemeral scalar, 12-byte nonce), `enc`
succeeds and `dec sk (enc r1 r2 pk m)` returns exactly `m`. -/
theorem claim_C1_hybrid_roundtrip (skS : Scalar25519) (msg : List Nat)
    (aesKeyElem : Point25519) (k : Scalar25519) (nonce : List Nat)
    (hn : nonce.length = 12) :
    ∃ ct, Scheme1.enc aesKeyElem k nonce (Scheme1.key_gen skS).2 msg = .ok ct ∧
      Scheme1.dec (Scheme1.key_gen skS).1 ct = .ok msg :=
  Scheme1.roundtrip skS msg aesKeyElem k nonce hn

theorem claim_C1_hybrid_roundtrip_witness :
    (List.replicate 12 0 : List Nat).length = 12 ∧
    ∃ ct, Scheme1.enc 7 11 (List.replicate 12 0) (Scheme1.key_gen 3).2 [] = .ok ct ∧
      Scheme1.dec (Scheme1.key_gen 3).1 ct = .ok [] :=
  ⟨by decide, claim_C1_hybrid_roundtrip 3 [] 7 11 (List.replicate 12 0) (by decide)⟩

/-- C2: VUF verification soundness — for every secret scalar `sk` with
`pk` the compressed encoding of `sk · G2` and `H = hash_to_g1 input`,
`Scheme0.verify pk input output []` succeeds iff `output` is the
compressed encoding of `sk · H`; any other output fails verification. -/
theorem claim_C2_vuf_verification_soundness (sk : FrBls) (input output : List Nat) :
    Scheme0.verify (g2Serialize (g2Mul sk g2Generator)) input output [] = .ok () ↔
      output = g1Serialize (g1Mul sk (Scheme0.hash_to_g1 input)) :=
  verify_iff_aux sk input output

/-- C3: Malformed-input rejection without crash — `enc` with a public-key
buffer whose length is not 32 returns the malformed-input error; `dec`
with a well-formed secret key and a ciphertext shorter than 76 bytes
returns the malformed-input error; `verify` with a non-empty proof
returns the argument-mismatch error.  All three return a distinguishable
failure value. -/
theorem claim_C3_malformed_input_rejection
    (e : Point25519) (k : Scalar25519) (nonce pkBad msg sk ct : List Nat)
    (pkv inputv outputv proofNe : List Nat)
    (hpk : pkBad.length ≠ 32)
    (hsk1 : sk.length = 32) (hsk2 : sk.all (fun b => b < 256) = true)
    (hsk3 : leToNat sk < ell)
    (hct : ct.length < 76)
    (hproof : proofNe ≠ []) :
    Scheme1.enc e k nonce pkBad msg =
      .error "asymmetric_encryption::scheme1::enc failed with incorrect pk length" ∧
    Scheme1.dec sk ct =
      .error "asymmetric_encryption::scheme1::dec failed with invalid ciphertext length" ∧
    Scheme0.verify pkv inputv outputv proofNe =
      .error "vuf::scheme0::verify failed with proof deserialization error" := by
  refine ⟨?_, ?_, ?_⟩
  · simp [Scheme1.enc, hpk]
  · have hdes : scalarFromCanonicalBytes sk = some ((leToNat sk : Nat) : Scalar25519) := by
      simp only [scalarFromCanonicalBytes, zmodFromBytes]
      rw [if_pos ⟨hsk1, hsk2, hsk3⟩]
    simp [Scheme1.dec, hsk1, hdes, hct]
  · have hne : proofNe.isEmpty = false := by
      cases proofNe with
      | nil => exact absurd rfl hproof
      | cons a l => rfl
    simp [Scheme0.verify, hne]

theorem claim_C3_malformed_input_rejection_witness :
    ([0] : List Nat).length ≠ 32 ∧
    (natToLe 32 3).length = 32 ∧
    (natToLe 32 3).all (fun b => b < 256) = true ∧
    leToNat (natToLe 32 3) < ell ∧
    ([] : List Nat).length < 76 ∧
    ([1] : List Nat) ≠ [] ∧
    (Scheme1.enc 7 11 [] [0] [] =
      .error "asymmetric_encryption::scheme1::enc failed with incorrect pk length" ∧
    Scheme1.dec (natToLe 32 3) [] =
      .error "asymmetric_encryption::scheme1::dec failed with invalid ciphertext length" ∧
    Scheme0.verify [] [] [] [1] =
      .error "vuf::scheme0::verify failed with proof deserialization error") :=
  ⟨by decide, by decide, by decide, by decide, by decide, by decide,
    claim_C3_malformed_input_rejection 7 11 [] [0] [] (natToLe 32 3) []
      [] [] [] [1] (by decide) (by decide) (by decide) (by decide) (by decide)
      (by decide)⟩

/-- C4: VUF completeness across entry points — for every `(sk, pk)`
produced by `Scheme0.setup` and every input byte string, `eval` succeeds
and returns a non-empty compressed G1 output (48 bytes) with an empty
proof, and `verify` accepts the result. -/
theorem claim_C4_vuf_completeness (sk : FrBls) (input : List Nat) :
    ∃ output, Scheme0.eval (Scheme0.setup sk).1 input = .ok (output, []) ∧
      output ≠ [] ∧ output.length = 48 ∧
      Scheme0.verify (Scheme0.setup sk).2 input output [] = .ok () := by
  refine ⟨g1Serialize (g1Mul sk (Scheme0.hash_to_g1 input)), ?_, ?_, ?_, ?_⟩
  · simp only [Scheme0.setup, Scheme0.eval, frDeserializeUncompressed_frSerialize]
    rfl
  · intro hnil
    have := g1Serialize_length (g1Mul sk (Scheme0.hash_to_g1 input))
    rw [hnil] at this
    simp at this
  · exact g1Serialize_length _
  · exact (verify_iff_aux sk input _).mpr rfl

/-- C5: Ciphertext wire format and length — every byte string
successfully returned by `Scheme1.enc` is the concatenation
`compressed(c0) ∥ compressed(c1) ∥ nonce ∥ AEAD-ciphertext-with-tag`
with field lengths 32, 32, 12 and `|m| + 16`, so its length is exactly
`92 + |m|` (173 bytes for an 81-byte message) and never below 92. -/
theorem claim_C5_ciphertext_wire_format (aesKeyElem : Point25519) (k : Scalar25519)
    (nonce pk msg ct : List Nat)
    (h : Scheme1.enc aesKeyElem k nonce pk msg = .ok ct) :
    ∃ c0 c1 : Point25519,
      ct = compressPoint c0 ++ compressPoint c1 ++ nonce ++
        aes256GcmEncrypt (Scheme1.hash_group_element_to_aes_key
          (compressPoint aesKeyElem)) nonce msg ∧
      (compressPoint c0).length = 32 ∧ (compressPoint c1).length = 32 ∧
      nonce.length = 12 ∧
      (aes256GcmEncrypt (Scheme1.hash_group_element_to_aes_key
          (compressPoint aesKeyElem)) nonce msg).length = msg.length + 16 ∧
      ct.length = 92 + msg.length ∧ 92 ≤ ct.length := by
  simp only [Scheme1.enc] at h
  split at h
  · exact absurd h (by simp)
  · split at h
    · exact absurd h (by simp)
    · rename_i pkElem hpkdes
      split at h
      · exact absurd h (by simp)
      · rename_i hnonce
        have hct : ct = compressPoint (elgamalEncrypt k pkElem aesKeyElem).1 ++
            compressPoint (elgamalEncrypt k pkElem aesKeyElem).2 ++ nonce ++
            aes256GcmEncrypt (Scheme1.hash_group_element_to_aes_key
              (compressPoint aesKeyElem)) nonce msg := by
          injection h with h'
          exact h'.symm
        have hn12 : nonce.length = 12 := by omega
        refine ⟨(elgamalEncrypt k pkElem aesKeyElem).1,
          (elgamalEncrypt k pkElem aesKeyElem).2, hct,
          compressPoint_length _, compressPoint_length _, hn12,
          aes256GcmEncrypt_length _ _ _, ?_, ?_⟩
        · rw [hct]
          simp [List.length_append, compressPoint_length, hn12,
            aes256GcmEncrypt_length]
          omega
        · rw [hct]
          simp [List.length_append, compressPoint_length, hn12,
            aes256GcmEncrypt_length]
          omega

/-- The concrete ciphertext produced by `Scheme1.enc` on the fixed inputs
used in the wire-format witness. -/
def c5Ciphertext : List Nat :=
  match Scheme1.enc 7 11 (List.replicate 12 1) (compressPoint 5) [1, 2, 3] with
  | .ok ct => ct
  | .error _ => []

set_option maxRecDepth 100000 in
theorem claim_C5_ciphertext_wire_format_witness :
    Scheme1.enc 7 11 (List.replicate 12 1) (compressPoint 5) [1, 2, 3] =
      .ok c5Ciphertext ∧
    ∃ c0 c1 : Point25519,
      c5Ciphertext = compressPoint c0 ++ compressPoint c1 ++ List.replicate 12 1 ++
        aes256GcmEncrypt (Scheme1.hash_group_element_to_aes_key
          (compressPoint 7)) (List.replicate 12 1) [1, 2, 3] ∧
      (compressPoint c0).length = 32 ∧ (compressPoint c1).length = 32 ∧
      (List.replicate 12 1 : List Nat).length = 12 ∧
      (aes256GcmEncrypt (Scheme1.hash_group_element_to_aes_key
          (compressPoint 7)) (List.replicate 12 1) [1, 2, 3]).length = 3 + 16 ∧
      c5Ciphertext.length = 92 + 3 ∧ 92 ≤ c5Ciphertext.length :=
  ⟨by decide, by
    have := claim_C5_ciphertext_wire_format 7 11 (List.replicate 12 1)
      (compressPoint 5) [1, 2, 3] c5Ciphertext (by decide)
    simpa using this⟩

/-- C6: Setup / pk_from_sk consistency — for every randomness source
(represented by the scalar it produces), if `Scheme0.setup` returns
`(sk, pk)` then `pk_from_sk sk` succeeds and returns exactly `pk`. -/
theorem claim_C6_setup_pk_from_sk_consistency (sk : FrBls) :
    Scheme0.pk_from_sk (Scheme0.setup sk).1 = .ok (Scheme0.setup sk).2 := by
  simp only [Scheme0.setup, Scheme0.pk_from_sk, frDeserializeCompressed_frSerialize]

/-- C7: Determinism of VUF evaluation — `Scheme0.eval` is a pure function
of its explicit arguments: two calls with identical `(sk, input)` return
identical `(output, proof)` values. -/
theorem claim_C7_vuf_eval_deterministic (sk1 sk2 input1 input2 : List Nat)
    (hsk : sk1 = sk2) (hin : input1 = input2) :
    Scheme0.eval sk1 input1 = Scheme0.eval sk2 input2 := by
  rw [hsk, hin]

theorem claim_C7_vuf_eval_deterministic_witness :
    ([1] : List Nat) = [1] ∧ ([2] : List Nat) = [2] ∧
    Scheme0.eval [1] [2] = Scheme0.eval [1] [2] :=
  ⟨by decide, by decide,
    claim_C7_vuf_eval_deterministic [1] [1] [2] [2] (by decide) (by decide)⟩

/-- C8: AEAD key derivation agreement — the 256-bit key is
`SHA3-256(DST ∥ compressed(r))` (32 bytes), `dec` re-derives it by the
identical computation from the element recovered by ElGamal decryption,
and whenever that recovery returns the element `enc` used (as it does for
matching key pairs) the two derived keys are equal. -/
theorem claim_C8_aead_key_derivation_agreement (eb : List Nat)
    (sk k : Scalar25519) (e : Point25519) :
    Scheme1.hash_group_element_to_aes_key eb =
      sha3_256 (Scheme1.dstAesKeyDerivation ++ eb) ∧
    (Scheme1.hash_group_element_to_aes_key eb).length = 32 ∧
    Scheme1.hash_group_element_to_aes_key (compressPoint (elgamalDecrypt sk
        (elgamalEncrypt k (pointMul sk basepoint) e).1
        (elgamalEncrypt k (pointMul sk basepoint) e).2)) =
      Scheme1.hash_group_element_to_aes_key (compressPoint e) :=
  ⟨rfl, sha3_256_length _, by rw [elgamalDecrypt_elgamalEncrypt]⟩

/-- C9: Non-determinism of encryption — two `enc` calls with identical
`(pk, m)` but randomness yielding distinct nonces or distinct ephemeral
group elements produce different ciphertexts, and the nonce appears
verbatim at byte offsets 64..76 of each output. -/
theorem claim_C9_encryption_nondeterminism (pkEl : Point25519) (msg : List Nat)
    (e1 e2 : Point25519) (k1 k2 : Scalar25519) (n1 n2 : List Nat)
    (h1 : n1.length = 12) (h2 : n2.length = 12)
    (hdiff : n1 ≠ n2 ∨ e1 ≠ e2) :
    ∃ ct1 ct2,
      Scheme1.enc e1 k1 n1 (compressPoint pkEl) msg = .ok ct1 ∧
      Scheme1.enc e2 k2 n2 (compressPoint pkEl) msg = .ok ct2 ∧
      (ct1.drop 64).take 12 = n1 ∧ (ct2.drop 64).take 12 = n2 ∧
      ct1 ≠ ct2 := by
  refine ⟨_, _, Scheme1.enc_ok e1 k1 n1 pkEl msg h1,
    Scheme1.enc_ok e2 k2 n2 pkEl msg h2, ?_, ?_, ?_⟩
  · exact (ciphertext_split _ _ n1 _ (compressPoint_length _)
      (compressPoint_length _) h1).2.2.1
  · exact (ciphertext_split _ _ n2 _ (compressPoint_length _)
      (compressPoint_length _) h2).2.2.1
  · intro hEq
    obtain ⟨t1a, t1b, t1n, _, _⟩ := ciphertext_split
      (compressPoint (elgamalEncrypt k1 pkEl e1).1)
      (compressPoint (elgamalEncrypt k1 pkEl e1).2) n1
      (aes256GcmEncrypt (Scheme1.hash_group_element_to_aes_key
        (compressPoint e1)) n1 msg)
      (compressPoint_length _) (compressPoint_length _) h1
    obtain ⟨t2a, t2b, t2n, _, _⟩ := ciphertext_split
      (compressPoint (elgamalEncrypt k2 pkEl e2).1)
      (compressPoint (elgamalEncrypt k2 pkEl e2).2) n2
      (aes256GcmEncrypt (Scheme1.hash_group_element_to_aes_key
        (compressPoint e2)) n2 msg)
      (compressPoint_length _) (compressPoint_length _) h2
    have hn : n1 = n2 := by rw [← t1n, ← t2n, hEq]
    have hc0 : compressPoint (elgamalEncrypt k1 pkEl e1).1 =
        compressPoint (elgamalEncrypt k2 pkEl e2).1 := by
      rw [← t1a, ← t2a, hEq]
    have hc1 : compressPoint (elgamalEncrypt k1 pkEl e1).2 =
        compressPoint (elgamalEncrypt k2 pkEl e2).2 := by
      rw [← t1b, ← t2b, hEq]
    have hk : k1 = k2 := by
      have := compressPoint_inj _ _ hc0
      simp only [elgamalEncrypt, pointMul, basepoint, mul_one] at this
      exact this
    have he : e1 = e2 := by
      have := compressPoint_inj _ _ hc1
      simp only [elgamalEncrypt, pointAdd, pointMul, basepoint, hk] at this
      exact add_right_cancel this
    rcases hdiff with hd | hd
    · exact hd hn
    · exact hd he

theorem claim_C9_encryption_nondeterminism_witness :
    (List.replicate 12 0 : List Nat).length = 12 ∧
    (List.replicate 12 1 : List Nat).length = 12 ∧
    ((List.replicate 12 0 : List Nat) ≠ List.replicate 12 1 ∨ (7 : Point25519) ≠ 7) ∧
    ∃ ct1 ct2,
      Scheme1.enc 7 11 (List.replicate 12 0) (compressPoint 5) [9] = .ok ct1 ∧
      Scheme1.enc 7 11 (List.replicate 12 1) (compressPoint 5) [9] = .ok ct2 ∧
      (ct1.drop 64).take 12 = List.replicate 12 0 ∧
      (ct2.drop 64).take 12 = List.replicate 12 1 ∧
      ct1 ≠ ct2 :=
  ⟨by decide, by decide, Or.inl (by decide),
    claim_C9_encryption_nondeterminism 5 [9] 7 7 11 11
      (List.replicate 12 0) (List.replicate 12 1)
      (by decide) (by decide) (Or.inl (by decide))⟩

/-- C10: Uniform secret-key encoding in the VUF — the uncompressed
scalar-field deserialization used by `eval` accepts exactly the byte
strings the compressed deserialization used by `pk_from_sk` accepts, with
the same decoded scalar (for prime fields, `ark-serialize` ignores the
compress flag); consequently a secret key serialized by `setup` is
accepted, with the same value, by both entry points. -/
theorem claim_C10_uniform_sk_encoding :
    (∀ bs : List Nat, frDeserializeUncompressed bs = frDeserializeCompressed bs) ∧
    (∀ sk : FrBls,
      frDeserializeUncompressed (Scheme0.setup sk).1 = some sk ∧
      frDeserializeCompressed (Scheme0.setup sk).1 = some sk) :=
  ⟨fun _ => rfl, fun sk =>
    ⟨frDeserializeUncompressed_frSerialize sk, frDeserializeCompressed_frSerialize sk⟩⟩
